import Mathlib

/-!
Verification development for the spelling-correction repository.

The file shallowly embeds, in Lean, the parts of the code that the spec
talks about:

* src/tool/transformer.py : the greedy autoregressive decoding loop of
  Transformer.infer, the padding and look-ahead mask constructions, the
  MultiHeadAttention construction-time check, and the CustomSchedule
  learning-rate function;
* src/transform/bea2019.py : the train/valid/test split of Transform.build;
* src/tool/statistical.py : the per-token correction loops of the norvig,
  similarity and symspell modes of LanguageModel.

Tensors of token ids are modelled as lists of naturals, logit vectors as
lists of rationals, and real-valued (float) formulas as real numbers.
Learned components (the decoder network, third-party spellchecker
libraries) are parameters of the embedded functions.
-/

namespace SpellingCorrection

/-! ## Transformer.infer (src/tool/transformer.py lines 353-379) -/

/-- Helper for argmaxIdx: scans the remaining list, keeping the best value
seen so far, its index, and the index of the current element; a later
element replaces the best only when strictly greater, so the first maximum
wins, matching tf.argmax. -/
def argmaxGo : List ℚ → ℚ → ℕ → ℕ → ℕ
  | [], _, bi, _ => bi
  | y :: ys, bv, bi, i => if bv < y then argmaxGo ys y i (i + 1) else argmaxGo ys bv bi (i + 1)

/-- Index of the first maximum of a list of logits (tf.argmax over the last
axis); 0 on the empty list. -/
def argmaxIdx (l : List ℚ) : ℕ :=
  match l with
  | [] => 0
  | x :: xs => argmaxGo xs x 0 1

/-- One decoding state step of Transformer.infer, embedded with fuel.
The Python loop is

  for _ in range(maxlen):
      pred = argmax of decoder logits at the last position of dec
      if len(dec) > len(sentence) or pred == EOS: break
      dec = dec ++ [pred]

pred is a function of the current decoder input (the fixed encoder output
is absorbed into the model parameter). n is len(sentence). -/
def decodeLoop (model : List ℕ → ℕ) (eos n : ℕ) : ℕ → List ℕ → List ℕ
  | 0, dec => dec
  | fuel + 1, dec =>
    let pred := model dec
    if n < dec.length ∨ pred = eos then dec
    else decodeLoop model eos n fuel (dec ++ [pred])

/-- Same loop, also returning how many times the loop body ran (each entry
of the Python for-body counts, including the one that breaks). -/
def decodeLoopCount (model : List ℕ → ℕ) (eos n : ℕ) : ℕ → List ℕ → List ℕ × ℕ
  | 0, dec => (dec, 0)
  | fuel + 1, dec =>
    let pred := model dec
    if n < dec.length ∨ pred = eos then (dec, 1)
    else
      let r := decodeLoopCount model eos n fuel (dec ++ [pred])
      (r.1, r.2 + 1)

/-- Greedy decoder step of infer for a decoder returning last-position
logits: the predicted id is the argmax over the vocabulary axis. -/
def predictId (logitsFn : List ℕ → List ℚ) (dec : List ℕ) : ℕ :=
  argmaxIdx (logitsFn dec)

/-- Token-id sequence that infer hands to tokenizer.decode: run the loop
from [SOS] with fuel maxlen, drop the leading SOS, and keep only ids below
vocab_size (the Python comprehension [i for i in dec[1:] if i < vocab_size]). -/
def inferIds (logitsFn : List ℕ → List ℚ) (sos eos vocab_size maxlen : ℕ)
    (sentence : List ℕ) : List ℕ :=
  ((decodeLoop (predictId logitsFn) eos sentence.length maxlen [sos]).drop 1).filter
    (fun i => decide (i < vocab_size))

/-! ## Masks (src/tool/transformer.py lines 381-395) -/

/-- Padding mask of Transformer.create_padding_mask for one row of token
ids: tf.cast(tf.equal(x, 0), float32), entry 1 exactly at pad (0) tokens.
The [:, newaxis, newaxis, :] broadcast reshape carries no data and is not
modelled. -/
def create_padding_mask (x : List ℕ) : List ℕ :=
  x.map (fun t => if t = 0 then 1 else 0)

/-- Strictly-upper-triangular all-ones future mask
1 - tf.linalg.band_part(tf.ones((seq_len, seq_len)), -1, 0): entry (i, j)
is 1 exactly when j > i. -/
def futureMask (seq_len : ℕ) : List (List ℕ) :=
  (List.range seq_len).map (fun i => (List.range seq_len).map (fun j => if i < j then 1 else 0))

/-- Look-ahead mask of Transformer.create_look_ahead_mask: the elementwise
maximum of the future mask of shape (seq_len, seq_len) and the padding mask
of the input, the padding row broadcast across the rows. -/
def create_look_ahead_mask (x : List ℕ) : List (List ℕ) :=
  (futureMask x.length).map (fun row => row.zipWith max (create_padding_mask x))

/-! ## MultiHeadAttention construction (src/tool/transformer.py lines 404-417) -/

/-- Shape configuration fixed by MultiHeadAttention.__init__. -/
structure MHAConfig where
  d_model : ℕ
  num_heads : ℕ
  depth : ℕ
  deriving DecidableEq, Repr

/-- Construction of MultiHeadAttention: the Python __init__ asserts
d_model % num_heads == 0 (and % by num_heads = 0 raises ZeroDivisionError),
then sets depth = d_model // num_heads; a failed assert is modelled as
none. -/
def MHAConfig.init (d_model num_heads : ℕ) : Option MHAConfig :=
  if num_heads = 0 then none
  else if d_model % num_heads = 0 then some ⟨d_model, num_heads, d_model / num_heads⟩
  else none

/-! ## CustomSchedule (src/tool/transformer.py lines 518-530) -/

/-- Reciprocal square root, tf.math.rsqrt. -/
noncomputable def rsqrt (x : ℝ) : ℝ :=
  (Real.sqrt x)⁻¹

/-- Parameters stored by CustomSchedule.__init__ (warmup_steps defaults to
4000 in the source). -/
structure CustomSchedule where
  d_model : ℝ
  warmup_steps : ℝ

/-- CustomSchedule.__call__:
rsqrt(d_model) * min(rsqrt(step), step * warmup_steps ** -1.5). -/
noncomputable def CustomSchedule.call (c : CustomSchedule) (step : ℝ) : ℝ :=
  rsqrt c.d_model * min (rsqrt step) (step * c.warmup_steps ^ (-(3 : ℝ) / 2))

/-! ## BEA2019 transform (src/transform/bea2019.py lines 15-32) -/

/-- Partition dictionary filled by Transform.build. -/
structure Partitions where
  train : List String
  valid : List String
  test : List String
  deriving DecidableEq, Repr

/-- Split stage of Transform.build: total = len(lines),
train_i = int(total * 0.8), valid_i = train_i + int((total - train_i) / 2),
then Python slices lines[:train_i], lines[train_i:valid_i], lines[valid_i:].
For list lengths below 2^52 the float expression int(total * 0.8) equals
the exact floor 4 * total / 5, which is how it is embedded. -/
def buildSplit (lines : List String) : Partitions :=
  let total := lines.length
  let train_i := total * 4 / 5
  let valid_i := train_i + (total - train_i) / 2
  { train := lines.take train_i
    valid := (lines.drop train_i).take (valid_i - train_i)
    test := lines.drop valid_i }

/-- Transform.build: gather the raw M2 lines, deduplicate them
(list(set(lines)); Lean's dedup fixes first-occurrence order, which the
split properties do not depend on), normalize via the external
preproc.normalize_text collaborator (a parameter), and split. -/
def Transform.build (normalize : List String → List String) (raw : List String) : Partitions :=
  buildSplit (normalize raw.dedup)

/-! ## Statistical baselines (src/tool/statistical.py lines 77-178) -/

/-- Python's string.punctuation. -/
def pyPunctuation : String :=
  "!\"#$%&'()*+,-./:;<=>?@[\\]^_\x60\x7b|\x7d~"

/-- Python's substring membership test, x in s. -/
def pyInStr (x s : String) : Bool :=
  s.toList.tails.any (fun t => x.toList.isPrefixOf t)

/-- Helper for pySplit: cut a character list at every whitespace character,
accumulating the current (reversed) piece. -/
def splitRun : List Char → List Char → List (List Char)
  | [], acc => [acc.reverse]
  | c :: cs, acc =>
    if c.isWhitespace then acc.reverse :: splitRun cs [] else splitRun cs (c :: acc)

/-- Python's str.split() with no argument: split on runs of whitespace,
dropping empty pieces (cutting at every whitespace character and dropping
empty pieces is the same as splitting on maximal runs). -/
def pySplit (s : String) : List String :=
  ((splitRun s.toList []).map (fun l => String.mk l)).filter (fun t => t ≠ "")

/-- Per-token step of LanguageModel._norvig:
sugg = norvig.correction(x) if x not in string.punctuation else None;
splitted.append(sugg if sugg else x). The third-party
pyspellchecker correction is a parameter returning Option String (None
when no candidate); a None or empty suggestion is falsy, so x survives. -/
def norvigToken (correction : String → Option String) (x : String) : String :=
  let sugg := if pyInStr x pyPunctuation then none else correction x
  match sugg with
  | some s => if s = "" then x else s
  | none => x

/-- Per-token step of LanguageModel._similarity with the third-party
ngram.find as a parameter; identical falsy handling. -/
def similarityToken (find : String → Option String) (x : String) : String :=
  let sugg := if pyInStr x pyPunctuation then none else find x
  match sugg with
  | some s => if s = "" then x else s
  | none => x

/-- Per-token step of LanguageModel._symspell: lookup returns a list of
suggestions (each modelled by its term string); an empty list is falsy and
keeps x, otherwise sugg[0].term is taken. -/
def symspellToken (lookup : String → List String) (x : String) : String :=
  let sugg := if pyInStr x pyPunctuation then [] else lookup x
  match sugg with
  | [] => x
  | t :: _ => t

/-- Shared sentence loop of the three modes: split on whitespace, correct
each token, rejoin with single spaces. -/
def correctSentence (tok : String → String) (s : String) : String :=
  " ".intercalate ((pySplit s).map tok)

/-- Shared input normalization: if not isinstance(sentences, list):
sentences = [sentences]. -/
def wrapSentences : Sum String (List String) → List String
  | Sum.inl s => [s]
  | Sum.inr l => l

/-- LanguageModel._norvig over a sentence or a list of sentences. -/
def LanguageModel.norvig (correction : String → Option String)
    (sentences : Sum String (List String)) : List String :=
  (wrapSentences sentences).map (correctSentence (norvigToken correction))

/-- LanguageModel._similarity over a sentence or a list of sentences. -/
def LanguageModel.similarity (find : String → Option String)
    (sentences : Sum String (List String)) : List String :=
  (wrapSentences sentences).map (correctSentence (similarityToken find))

/-- LanguageModel._symspell over a sentence or a list of sentences. -/
def LanguageModel.symspell (lookup : String → List String)
    (sentences : Sum String (List String)) : List String :=
  (wrapSentences sentences).map (correctSentence (symspellToken lookup))

/-! ## Lemmas about the decoding loop -/

theorem argmaxGo_lt (ys : List ℚ) : ∀ (bv : ℚ) (bi i : ℕ), bi < i →
    argmaxGo ys bv bi i < i + ys.length := by
  induction ys with
  | nil => intro bv bi i h; simpa [argmaxGo] using h
  | cons y ys ih =>
    intro bv bi i h
    simp only [argmaxGo, List.length_cons]
    by_cases hlt : bv < y
    · simp only [if_pos hlt]
      have := ih y i (i + 1) (Nat.lt_succ_self i)
      omega
    · simp only [if_neg hlt]
      have := ih bv bi (i + 1) (Nat.lt_succ_of_lt h)
      omega

theorem argmaxIdx_lt (l : List ℚ) (h : 0 < l.length) : argmaxIdx l < l.length := by
  match l with
  | x :: xs =>
    have h2 := argmaxGo_lt xs x 0 1 Nat.zero_lt_one
    simp only [argmaxIdx, List.length_cons]
    omega

theorem decodeLoop_length_le (model : List ℕ → ℕ) (eos n : ℕ) :
    ∀ (fuel : ℕ) (dec : List ℕ), dec.length ≤ n + 1 →
      (decodeLoop model eos n fuel dec).length ≤ n + 1 := by
  intro fuel
  induction fuel with
  | zero => intro dec h; simpa [decodeLoop] using h
  | succ f ih =>
    intro dec h
    simp only [decodeLoop]
    by_cases hc : n < dec.length ∨ model dec = eos
    · simpa [if_pos hc] using h
    · simp only [if_neg hc]
      apply ih
      push_neg at hc
      have : dec.length ≤ n := hc.1
      simp [this, Nat.succ_le_succ]

theorem mem_drop_one_append (l : List ℕ) (p x : ℕ) (h : x ∈ (l ++ [p]).drop 1) :
    x ∈ l.drop 1 ∨ x = p := by
  match l with
  | [] => simp at h
  | a :: t =>
    simp only [List.cons_append, List.drop_succ_cons, List.drop_zero] at h ⊢
    rcases List.mem_append.mp h with h1 | h1
    · exact Or.inl h1
    · exact Or.inr (by simpa using h1)

theorem decodeLoop_drop_lt (model : List ℕ → ℕ) (eos n v : ℕ)
    (hm : ∀ d, model d < v) :
    ∀ (fuel : ℕ) (dec : List ℕ), (∀ x ∈ dec.drop 1, x < v) →
      ∀ x ∈ (decodeLoop model eos n fuel dec).drop 1, x < v := by
  intro fuel
  induction fuel with
  | zero => intro dec h; simpa [decodeLoop] using h
  | succ f ih =>
    intro dec h
    simp only [decodeLoop]
    by_cases hc : n < dec.length ∨ model dec = eos
    · simpa [if_pos hc] using h
    · simp only [if_neg hc]
      apply ih
      intro x hx
      rcases mem_drop_one_append dec (model dec) x hx with h1 | h1
      · exact h x h1
      · exact h1 ▸ hm dec

/-- C2. The autoregressive decoding loop of infer runs its body at most
maxlen times (the fuel) and is a total function, whatever the decoder
model predicts — in particular even when the EOS token never appears. -/
theorem infer_loop_terminates_within_maxlen (model : List ℕ → ℕ) (eos n : ℕ) :
    ∀ (maxlen : ℕ) (dec : List ℕ),
      (decodeLoopCount model eos n maxlen dec).2 ≤ maxlen ∧
      (decodeLoopCount model eos n maxlen dec).1 = decodeLoop model eos n maxlen dec := by
  intro maxlen
  induction maxlen with
  | zero => intro dec; simp [decodeLoopCount, decodeLoop]
  | succ f ih =>
    intro dec
    simp only [decodeLoopCount, decodeLoop]
    by_cases hc : n < dec.length ∨ model dec = eos
    · simp [if_pos hc]
    · simp only [if_neg hc]
      refine ⟨Nat.succ_le_succ (ih (dec ++ [model dec])).1, (ih (dec ++ [model dec])).2⟩

/-- C3. The loop stops, leaving the decoder input unchanged for any
remaining fuel, exactly when the decoder length exceeds the sentence
length or the prediction is EOS; otherwise it appends the prediction and
continues; consequently the generated sequence (leading SOS dropped) never
exceeds the input sentence length. -/
theorem infer_stop_condition_caps_length (model : List ℕ → ℕ) (eos n maxlen sos : ℕ) :
    (∀ dec : List ℕ, (n < dec.length ∨ model dec = eos) →
      ∀ f, decodeLoop model eos n f dec = dec) ∧
    (∀ (dec : List ℕ) (f : ℕ), ¬(n < dec.length ∨ model dec = eos) →
      decodeLoop model eos n (f + 1) dec = decodeLoop model eos n f (dec ++ [model dec])) ∧
    ((decodeLoop model eos n maxlen [sos]).drop 1).length ≤ n := by
  refine ⟨?_, ?_, ?_⟩
  · intro dec h f
    match f with
    | 0 => rfl
    | f + 1 => simp [decodeLoop, if_pos h]
  · intro dec f h
    simp [decodeLoop, if_neg h]
  · have h1 : ([sos] : List ℕ).length ≤ n + 1 := by simp
    have h2 := decodeLoop_length_le model eos n maxlen [sos] h1
    have h3 : ((decodeLoop model eos n maxlen [sos]).drop 1).length =
        (decodeLoop model eos n maxlen [sos]).length - 1 := by simp
    omega

/-- Closed witness for infer_stop_condition_caps_length: with a model that
always predicts 0, EOS = 2 and sentence length 3, a decoder input of
length 5 is left unchanged, and the generated output from [1] keeps at
most 3 tokens. -/
theorem infer_stop_condition_caps_length_witness :
    decodeLoop (fun _ => 0) 2 3 5 [9, 9, 9, 9, 9] = [9, 9, 9, 9, 9] ∧
    ((decodeLoop (fun _ => 0) 2 3 10 [1]).drop 1).length ≤ 3 :=
  ⟨(infer_stop_condition_caps_length (fun _ => 0) 2 3 5 1).1 [9, 9, 9, 9, 9]
      (Or.inl (by decide)) 5,
    (infer_stop_condition_caps_length (fun _ => 0) 2 3 10 1).2.2⟩

/-- C1 (counterexample). The code can emit the SOS id: with vocab_size 4,
SOS = 1, EOS = 2 and a decoder whose logits always peak at index 1, the id
sequence handed to tokenizer.decode for the input [3, 3] is [1, 1], which
contains the SOS id. -/
theorem infer_ids_can_contain_sos :
    inferIds (fun _ => [0, 5, 0, 0]) 1 2 4 10 [3, 3] = [1, 1] ∧
    (1 : ℕ) ∈ inferIds (fun _ => [0, 5, 0, 0]) 1 2 4 10 [3, 3] := by
  constructor
  · decide
  · decide

/-- C1 (amended). Every id in the sequence that infer decodes is below
vocab_size; moreover, when the decoder always returns one logit per
vocabulary entry (and the vocabulary is nonempty), the filter on ids ≥
vocab_size removes nothing, because every argmax already lies below
vocab_size. -/
theorem infer_ids_below_vocab (logitsFn : List ℕ → List ℚ)
    (sos eos vocab_size maxlen : ℕ) (sentence : List ℕ)
    (hlen : ∀ d, (logitsFn d).length = vocab_size) (hv : 0 < vocab_size) :
    (∀ i ∈ inferIds logitsFn sos eos vocab_size maxlen sentence, i < vocab_size) ∧
    inferIds logitsFn sos eos vocab_size maxlen sentence =
      (decodeLoop (predictId logitsFn) eos sentence.length maxlen [sos]).drop 1 := by
  have hm : ∀ d, predictId logitsFn d < vocab_size := by
    intro d
    have : 0 < (logitsFn d).length := by rw [hlen d]; exact hv
    have h2 := argmaxIdx_lt (logitsFn d) this
    simpa [predictId, hlen d] using h2
  have htail : ∀ x ∈ (decodeLoop (predictId logitsFn) eos sentence.length maxlen [sos]).drop 1,
      x < vocab_size := by
    apply decodeLoop_drop_lt _ _ _ _ hm
    intro x hx
    simp at hx
  constructor
  · intro i hi
    have : i ∈ (decodeLoop (predictId logitsFn) eos sentence.length maxlen [sos]).drop 1 :=
      List.mem_of_mem_filter hi
    exact htail i this
  · unfold inferIds
    apply List.filter_eq_self.mpr
    intro a ha
    simpa using htail a ha

/-- Closed witness for infer_ids_below_vocab: a constant-logit decoder
with 4 vocabulary entries over the input [3, 3]. -/
theorem infer_ids_below_vocab_witness :
    (∀ i ∈ inferIds (fun _ => [0, 5, 0, 0]) 1 2 4 10 [3, 3], i < 4) ∧
    inferIds (fun _ => [0, 5, 0, 0]) 1 2 4 10 [3, 3] =
      (decodeLoop (predictId (fun _ => [0, 5, 0, 0])) 2 2 10 [1]).drop 1 :=
  infer_ids_below_vocab (fun _ => [0, 5, 0, 0]) 1 2 4 10 [3, 3]
    (fun _ => rfl) (by decide)

/-! ## MultiHeadAttention construction and masks -/

/-- C4. With a positive head count (a zero head count makes the Python %
raise before the assert can pass), MultiHeadAttention construction
succeeds exactly when d_model is divisible by num_heads, and on success it
records depth = d_model / num_heads with depth * num_heads = d_model, so
nothing is silently truncated. -/
theorem mha_init_divisibility (d_model num_heads : ℕ) (hh : 0 < num_heads) :
    ((MHAConfig.init d_model num_heads).isSome ↔ d_model % num_heads = 0) ∧
    (∀ c : MHAConfig, MHAConfig.init d_model num_heads = some c →
      c.d_model = d_model ∧ c.num_heads = num_heads ∧
      c.depth = d_model / num_heads ∧ c.depth * num_heads = d_model) := by
  have hne : num_heads ≠ 0 := Nat.pos_iff_ne_zero.mp hh
  constructor
  · by_cases hmod : d_model % num_heads = 0
    · simp [MHAConfig.init, hne, hmod]
    · simp [MHAConfig.init, hne, hmod]
  · intro c hc
    by_cases hmod : d_model % num_heads = 0
    · simp only [MHAConfig.init, if_neg hne, if_pos hmod, Option.some.injEq] at hc
      subst hc
      refine ⟨rfl, rfl, rfl, ?_⟩
      exact Nat.div_mul_cancel (Nat.dvd_of_mod_eq_zero hmod)
    · simp [MHAConfig.init, hne, hmod] at hc

/-- Closed witness for mha_init_divisibility: d_model = 8 splits over 2
heads of depth 4, and d_model = 10 over 3 heads is rejected. -/
theorem mha_init_divisibility_witness :
    (MHAConfig.init 8 2).isSome = true ∧ (MHAConfig.init 10 3).isSome = false :=
  ⟨(mha_init_divisibility 8 2 (by decide)).1.mpr (by decide) |>.symm ▸ rfl,
    by
      have h := (mha_init_divisibility 10 3 (by decide)).1
      by_contra hne
      have : (MHAConfig.init 10 3).isSome = true := by
        cases hiss : (MHAConfig.init 10 3).isSome
        · exact absurd hiss hne
        · rfl
      exact absurd (h.mp this) (by decide)⟩

/-- C5. create_padding_mask marks with 1 exactly the positions whose token
is the pad id 0, and marks every other position 0; on the spec's example
row [5, 7, 0, 0] it gives [0, 0, 1, 1]. -/
theorem create_padding_mask_spec :
    (∀ (x : List ℕ) (i : ℕ), i < x.length →
      (create_padding_mask x).getD i 0 = if x.getD i 0 = 0 then 1 else 0) ∧
    create_padding_mask [5, 7, 0, 0] = [0, 0, 1, 1] := by
  constructor
  · intro x
    induction x with
    | nil => intro i h; simp at h
    | cons a t ih =>
      intro i h
      match i with
      | 0 => simp [create_padding_mask]
      | i + 1 =>
        simp only [List.length_cons, Nat.add_lt_add_iff_right] at h
        simpa [create_padding_mask] using ih i h
  · decide

/-- Closed witness for create_padding_mask_spec at the example row. -/
theorem create_padding_mask_spec_witness :
    (create_padding_mask [5, 7, 0, 0]).getD 2 0 = 1 := by
  have h := create_padding_mask_spec.1 [5, 7, 0, 0] 2 (by decide)
  simpa using h

/-- C6. Entry (i, j) of create_look_ahead_mask is the maximum of the
strict-upper-triangle future bit and the padding bit of token j, hence it
blocks (value 1) exactly the positions with j > i or x[j] = 0; for the
pad-free input [5, 7, 9] the mask is the strict upper triangle. -/
theorem create_look_ahead_mask_spec :
    (∀ (x : List ℕ) (i j : ℕ), i < x.length → j < x.length →
      ((create_look_ahead_mask x).getD i []).getD j 0 =
        max (if i < j then 1 else 0) (if x.getD j 0 = 0 then 1 else 0)) ∧
    (∀ (x : List ℕ) (i j : ℕ), i < x.length → j < x.length →
      (((create_look_ahead_mask x).getD i []).getD j 0 = 1 ↔
        (i < j ∨ x.getD j 0 = 0))) ∧
    create_look_ahead_mask [5, 7, 9] = [[0, 1, 1], [0, 0, 1], [0, 0, 0]] := by
  have hmain : ∀ (x : List ℕ) (i j : ℕ), i < x.length → j < x.length →
      ((create_look_ahead_mask x).getD i []).getD j 0 =
        max (if i < j then 1 else 0) (if x.getD j 0 = 0 then 1 else 0) := by
    intro x i j hi hj
    have hi1 : i < (create_look_ahead_mask x).length := by
      simpa [create_look_ahead_mask, futureMask] using hi
    rw [List.getD_eq_getElem _ _ hi1, List.getD_eq_getElem _ _ hj]
    have hrow : (create_look_ahead_mask x)[i] =
        List.zipWith max ((List.range x.length).map (fun j => if i < j then 1 else 0))
          (create_padding_mask x) := by
      simp [create_look_ahead_mask, futureMask]
    rw [hrow]
    have hj1 : j < (List.zipWith max
        ((List.range x.length).map (fun j => if i < j then 1 else 0))
        (create_padding_mask x)).length := by
      simpa [create_padding_mask] using hj
    rw [List.getD_eq_getElem _ _ hj1]
    simp [create_padding_mask]
  refine ⟨hmain, ?_, by decide⟩
  intro x i j hi hj
  rw [hmain x i j hi hj]
  by_cases h1 : i < j <;> by_cases h2 : x.getD j 0 = 0 <;> simp [h1, h2] <;>
    split <;> simp

/-- Closed witness for create_look_ahead_mask_spec: in the mask of
[5, 7, 9], position (0, 1) is blocked because 1 is a future position. -/
theorem create_look_ahead_mask_spec_witness :
    ((create_look_ahead_mask [5, 7, 9]).getD 0 []).getD 1 0 = 1 :=
  (create_look_ahead_mask_spec.2.1 [5, 7, 9] 0 1 (by decide) (by decide)).mpr
    (Or.inl (by decide))

/-! ## CustomSchedule -/

theorem rsqrt_pos {x : ℝ} (hx : 0 < x) : 0 < rsqrt x := by
  have h := Real.sqrt_pos.mpr hx
  exact inv_pos.mpr h

/-- C7. For positive step, d_model and warmup_steps: the schedule value
rsqrt(d_model) * min(rsqrt(step), step * warmup_steps ^ (-3/2)) is
positive, the two arguments of the minimum agree at step = warmup_steps
(they cross there), and the schedule is continuous at that step. -/
theorem custom_schedule_spec (c : CustomSchedule) (step : ℝ)
    (hstep : 0 < step) (hd : 0 < c.d_model) (hw : 0 < c.warmup_steps) :
    0 < c.call step ∧
    c.warmup_steps * c.warmup_steps ^ (-(3 : ℝ) / 2) = rsqrt c.warmup_steps ∧
    ContinuousAt c.call c.warmup_steps := by
  refine ⟨?_, ?_, ?_⟩
  · have h1 : 0 < rsqrt c.d_model := rsqrt_pos hd
    have h2 : 0 < rsqrt step := rsqrt_pos hstep
    have h3 : 0 < step * c.warmup_steps ^ (-(3 : ℝ) / 2) :=
      mul_pos hstep (Real.rpow_pos_of_pos hw _)
    have h4 : 0 < min (rsqrt step) (step * c.warmup_steps ^ (-(3 : ℝ) / 2)) :=
      lt_min h2 h3
    exact mul_pos h1 h4
  · have hhalf : (-(1 : ℝ) / 2) = -((1 : ℝ) / 2) := by norm_num
    calc c.warmup_steps * c.warmup_steps ^ (-(3 : ℝ) / 2)
        = c.warmup_steps ^ (1 : ℝ) * c.warmup_steps ^ (-(3 : ℝ) / 2) := by
          rw [Real.rpow_one]
      _ = c.warmup_steps ^ ((1 : ℝ) + -(3 : ℝ) / 2) := (Real.rpow_add hw 1 _).symm
      _ = c.warmup_steps ^ (-(1 : ℝ) / 2) := by norm_num
      _ = (c.warmup_steps ^ ((1 : ℝ) / 2))⁻¹ := by rw [hhalf, Real.rpow_neg hw.le]
      _ = (Real.sqrt c.warmup_steps)⁻¹ := by rw [Real.sqrt_eq_rpow]
      _ = rsqrt c.warmup_steps := rfl
  · have h1 : ContinuousAt rsqrt c.warmup_steps :=
      (Real.continuous_sqrt.continuousAt).inv₀ (ne_of_gt (Real.sqrt_pos.mpr hw))
    have h2 : ContinuousAt (fun s : ℝ => s * c.warmup_steps ^ (-(3 : ℝ) / 2))
        c.warmup_steps := continuousAt_id.mul continuousAt_const
    have hmin : ContinuousAt
        (fun s : ℝ => min (rsqrt s) (s * c.warmup_steps ^ (-(3 : ℝ) / 2)))
        c.warmup_steps := Filter.Tendsto.min h1 h2
    exact continuousAt_const.mul hmin

/-- Closed witness for custom_schedule_spec: the schedule with d_model 4
and the default 4000 warmup steps is positive at step 9. -/
theorem custom_schedule_spec_witness :
    0 < CustomSchedule.call ⟨4, 4000⟩ 9 :=
  (custom_schedule_spec ⟨4, 4000⟩ 9 (by norm_num) (by norm_num) (by norm_num)).1

/-! ## BEA2019 split -/

/-- C8. Transform.build feeds the deduplicated, normalized line list into
the split, and for every line list the split yields the first
floor(0.8 * n) lines as train, the next floor((n - train) / 2) lines as
valid and the rest as test: three contiguous slices whose concatenation is
the whole list, with the stated lengths (hence pairwise disjoint index
ranges). -/
theorem transform_build_partition (normalize : List String → List String)
    (raw : List String) :
    Transform.build normalize raw = buildSplit (normalize raw.dedup) ∧
    ∀ lines : List String,
      (buildSplit lines).train = lines.take (lines.length * 4 / 5) ∧
      (buildSplit lines).valid = (lines.drop (lines.length * 4 / 5)).take
        ((lines.length - lines.length * 4 / 5) / 2) ∧
      (buildSplit lines).test = lines.drop
        (lines.length * 4 / 5 + (lines.length - lines.length * 4 / 5) / 2) ∧
      (buildSplit lines).train ++ (buildSplit lines).valid ++ (buildSplit lines).test
        = lines ∧
      (buildSplit lines).train.length = lines.length * 4 / 5 ∧
      (buildSplit lines).valid.length = (lines.length - lines.length * 4 / 5) / 2 ∧
      (buildSplit lines).test.length =
        lines.length - lines.length * 4 / 5 - (lines.length - lines.length * 4 / 5) / 2 := by
  refine ⟨rfl, ?_⟩
  intro lines
  set n := lines.length with hn
  set t := n * 4 / 5 with ht
  set v := (n - t) / 2 with hv
  have htn : t ≤ n := by
    rw [ht]
    calc n * 4 / 5 ≤ n * 5 / 5 := Nat.div_le_div_right (by omega)
      _ = n := Nat.mul_div_cancel n (by omega)
  have hvn : v ≤ n - t := Nat.div_le_self _ _
  have h1 : (buildSplit lines).train = lines.take t := rfl
  have h2 : (buildSplit lines).valid = (lines.drop t).take ((t + v) - t) := rfl
  have h2' : (buildSplit lines).valid = (lines.drop t).take v := by
    rw [h2]
    congr 1
    omega
  have h3 : (buildSplit lines).test = lines.drop (t + v) := rfl
  refine ⟨h1, h2', h3, ?_, ?_, ?_, ?_⟩
  · rw [h1, h2', h3]
    have hdd : (lines.drop t).drop v = lines.drop (t + v) := by
      rw [List.drop_drop]
    rw [List.append_assoc, ← hdd]
    rw [List.take_append_drop, List.take_append_drop]
  · rw [h1, List.length_take]
    omega
  · rw [h2', List.length_take, List.length_drop]
    omega
  · rw [h3, List.length_drop]
    omega

/-! ## Statistical baselines: round trip and list wrapping -/

/-- C9 (counterexample). The round trip fails on a sentence with a double
space even though every token is known: with a correction that maps every
word to itself (so all words are known), the input with two spaces between
a and b comes back with a single space, because the tokens are rejoined
with single spaces. -/
theorem norvig_roundtrip_collapses_whitespace :
    LanguageModel.norvig (fun w => some w) (Sum.inl "a  b") = ["a b"] ∧
    ("a b" : String) ≠ "a  b" := by
  constructor
  · decide
  · decide

/-- C9 (amended). For a sentence that is the single-space join of its own
whitespace tokens and whose tokens all lie in the dictionary (on which the
spellchecker correction acts as the identity), autocorrect in norvig mode
returns the sentence unchanged; a token passing the code's punctuation
test is returned untouched; and the corrected tokens are rejoined with
single spaces. -/
theorem norvig_known_words_roundtrip (dict : List String)
    (correction : String → Option String) (s : String)
    (hc : ∀ w ∈ dict, correction w = some w)
    (htok : ∀ t ∈ pySplit s, t ∈ dict)
    (hs : s = " ".intercalate (pySplit s)) :
    LanguageModel.norvig correction (Sum.inl s) = [s] ∧
    (∀ x : String, pyInStr x pyPunctuation = true → norvigToken correction x = x) ∧
    (∀ tok : String → String,
      correctSentence tok s = " ".intercalate ((pySplit s).map tok)) := by
  refine ⟨?_, ?_, fun tok => rfl⟩
  · have hfix : ∀ t ∈ pySplit s, norvigToken correction t = t := by
      intro t ht
      have htd := htok t ht
      by_cases hp : pyInStr t pyPunctuation
      · simp [norvigToken, hp]
      · simp [norvigToken, hp, hc t htd]
    have hmap : (pySplit s).map (norvigToken correction) = pySplit s := by
      calc (pySplit s).map (norvigToken correction)
          = (pySplit s).map id := List.map_congr_left hfix
        _ = pySplit s := List.map_id _
    show [correctSentence (norvigToken correction) s] = [s]
    rw [correctSentence, hmap]
    exact congrArg (fun z => [z]) hs.symm
  · intro x h
    simp [norvigToken, h]

/-- Closed witness for norvig_known_words_roundtrip: a two-word sentence
over a two-word dictionary with an identity correction. -/
theorem norvig_known_words_roundtrip_witness :
    LanguageModel.norvig (fun w => some w) (Sum.inl "hello world") = ["hello world"] :=
  (norvig_known_words_roundtrip ["hello", "world"] (fun w => some w) "hello world"
    (by decide) (by decide) (by decide)).1

/-- C10. In each of the three modes a bare sentence string is wrapped into
a one-element list, and the returned value is the list holding exactly the
one corrected sentence, never a bare string. -/
theorem autocorrect_single_sentence_wraps (correction : String → Option String)
    (find : String → Option String) (lookup : String → List String) (s : String) :
    wrapSentences (Sum.inl s) = [s] ∧
    LanguageModel.norvig correction (Sum.inl s) =
      [correctSentence (norvigToken correction) s] ∧
    LanguageModel.similarity find (Sum.inl s) =
      [correctSentence (similarityToken find) s] ∧
    LanguageModel.symspell lookup (Sum.inl s) =
      [correctSentence (symspellToken lookup) s] ∧
    (LanguageModel.norvig correction (Sum.inl s)).length = 1 ∧
    (LanguageModel.similarity find (Sum.inl s)).length = 1 ∧
    (LanguageModel.symspell lookup (Sum.inl s)).length = 1 :=
  ⟨rfl, rfl, rfl, rfl, rfl, rfl, rfl⟩

end SpellingCorrection
